import Mathlib

deriving instance DecidableEq for Except

/-!
Verification of the task_tracker repository against its specification.

The repository's `src/` holds only the CLI layer (`command_interface.py`);
the Tracker engine, the Task entity and the persistence layer are referenced
there (`from tracker import Tracker`, `from commons import TaskStatus`) but
their files are not present, so those parts are modelled from the spec's
words, as marked on each definition. The CLI `execute` dispatch is translated
from `src/command_interface.py`.
-/

namespace TaskTracker

/-- Modelled from the spec: the three-value status field of a task
(`todo`, `in-progress`, `done`); `commons.TaskStatus` is not in src/. -/
inductive TaskStatus where
  | todo
  | inProgress
  | done
deriving DecidableEq

/-- Modelled from the spec: the Task entity (`id` positive integer,
`description` text, `status`, `created_at`/`updated_at` timestamps);
the Task class file is not in src/. Timestamps are modelled as naturals. -/
structure Task where
  id : Nat
  description : String
  status : TaskStatus
  created_at : Nat
  updated_at : Nat
deriving DecidableEq

/-- Modelled from the spec: the error taxonomy of section 7 (`NotFound`,
`ValidationError`, `StorageError`); the exception classes are not in src/. -/
inductive TrackerError where
  | notFound
  | validationError
  | storageError
deriving DecidableEq

/-- Modelled from the spec: the current maximum id present in the store
(0 for an empty store), used by the id-assignment algorithm of section 4.2. -/
def maxId (store : List Task) : Nat :=
  (store.map Task.id).foldr max 0

/-- Modelled from the spec: "next id = one greater than the current maximum
id present in the store", recomputed from the loaded collection. -/
def nextId (store : List Task) : Nat :=
  maxId store + 1

/-- Modelled from the spec: `add_task` assigns the next unused id, creates a
Task with status `todo` and both timestamps set to the current time, and
appends it; the engine rejects an empty description with `ValidationError`
(section 7's defensive guard). `tracker.Tracker.add_task` is not in src/. -/
def add_task (store : List Task) (d : String) (now : Nat) :
    Except TrackerError (Task × List Task) :=
  if d = "" then .error .validationError
  else
    let t : Task := ⟨nextId store, d, .todo, now, now⟩
    .ok (t, store ++ [t])

/-- Modelled from the spec: `update_task` finds the task by id (failing with
`NotFound` if no task has that id), replaces its description and refreshes
`updated_at`; an empty replacement description is rejected with
`ValidationError`. `tracker.Tracker.update_task` is not in src/. -/
def update_task (store : List Task) (i : Nat) (d : String) (now : Nat) :
    Except TrackerError (Task × List Task) :=
  match store.find? (fun u => decide (u.id = i)) with
  | none => .error .notFound
  | some t0 =>
    if d = "" then .error .validationError
    else
      .ok ({ t0 with description := d, updated_at := now },
        store.map (fun u => if u.id = i then { u with description := d, updated_at := now } else u))

/-- Modelled from the spec: `delete_task` removes the task with the given id
(failing with `NotFound` if absent) and returns it.
`tracker.Tracker.delete_task` is not in src/. -/
def delete_task (store : List Task) (i : Nat) :
    Except TrackerError (Task × List Task) :=
  match store.find? (fun u => decide (u.id = i)) with
  | none => .error .notFound
  | some t0 => .ok (t0, store.filter (fun u => decide (¬ u.id = i)))

/-- Modelled from the spec: the common shape of the two mark operations —
find the task by id (failing with `NotFound` if absent), set its status and
refresh `updated_at`. -/
def set_status (store : List Task) (i : Nat) (s : TaskStatus) (now : Nat) :
    Except TrackerError (Task × List Task) :=
  match store.find? (fun u => decide (u.id = i)) with
  | none => .error .notFound
  | some t0 =>
    .ok ({ t0 with status := s, updated_at := now },
      store.map (fun u => if u.id = i then { u with status := s, updated_at := now } else u))

/-- Modelled from the spec: `mark_in_progress` sets the status of the task
with the given id to `in-progress`. `tracker.Tracker.mark_in_progress` is not
in src/. -/
def mark_in_progress (store : List Task) (i : Nat) (now : Nat) :
    Except TrackerError (Task × List Task) :=
  set_status store i .inProgress now

/-- Modelled from the spec: `mark_done` sets the status of the task with the
given id to `done`. `tracker.Tracker.mark_done` is not in src/. -/
def mark_done (store : List Task) (i : Nat) (now : Nat) :
    Except TrackerError (Task × List Task) :=
  set_status store i .done now

/-- Modelled from the spec: `list_tasks` returns the tasks in insertion
order, filtered by status when a filter is given; it never fails.
`tracker.Tracker.list_tasks` is not in src/. -/
def list_tasks (store : List Task) (s? : Option TaskStatus) : List Task :=
  match s? with
  | none => store
  | some s => store.filter (fun t => decide (t.status = s))

/-- The store an operation leaves behind: the new store on success, the old
store unchanged on failure (a failed operation does not persist). -/
def applyResult (store : List Task) (r : Except TrackerError (Task × List Task)) :
    List Task :=
  match r with
  | .ok (_, store') => store'
  | .error _ => store

/-- The id of the task an operation created, if it succeeded. -/
def newIdOf (r : Except TrackerError (Task × List Task)) : Option Nat :=
  match r with
  | .ok (t, _) => some t.id
  | .error _ => none

/-- Modelled from the spec: the status enum's persisted string value
(`todo` / `in-progress` / `done`, section 6). -/
def statusString : TaskStatus → String
  | .todo => "todo"
  | .inProgress => "in-progress"
  | .done => "done"

/-- Modelled from the spec: parsing a persisted status string back into the
enum; any other string is malformed data. -/
def parseStatus (s : String) : Option TaskStatus :=
  if s = "todo" then some .todo
  else if s = "in-progress" then some .inProgress
  else if s = "done" then some .done
  else none

/-- Modelled from the spec: one record of the persisted file (section 6):
`id` integer, `description` text, `status` as its enum string, and the two
timestamps. The store file is a sequence of such records in insertion
order. -/
structure TaskRecord where
  id : Nat
  description : String
  status : String
  created_at : Nat
  updated_at : Nat
deriving DecidableEq

/-- Modelled from the spec: serialising one task into its file record. -/
def dumpTask (t : Task) : TaskRecord :=
  ⟨t.id, t.description, statusString t.status, t.created_at, t.updated_at⟩

/-- Modelled from the spec: reading one record back; a record whose status
string is not one of the three enum values is malformed, which is a
`StorageError`. -/
def loadTask (r : TaskRecord) : Except TrackerError Task :=
  match parseStatus r.status with
  | none => .error .storageError
  | some s => .ok ⟨r.id, r.description, s, r.created_at, r.updated_at⟩

/-- Modelled from the spec: writing the whole store back to the file
("written fully back after each mutation"). -/
def dumpStore (store : List Task) : List TaskRecord :=
  store.map dumpTask

/-- Modelled from the spec: loading the whole file ("loaded fully on each
engine invocation"); a malformed record aborts the load with
`StorageError`. -/
def loadStore : List TaskRecord → Except TrackerError (List Task)
  | [] => .ok []
  | r :: rs =>
    match loadTask r, loadStore rs with
    | .ok t, .ok ts => .ok (t :: ts)
    | .error e, _ => .error e
    | .ok _, .error e => .error e

/-- Modelled from the spec: a mutating engine invocation — load the current
state from the file, apply the operation, persist the new state. A failure
at any step leaves the file as it was. -/
def runMutation (file : List TaskRecord)
    (op : List Task → Except TrackerError (Task × List Task)) :
    Except TrackerError (Task × List TaskRecord) :=
  match loadStore file with
  | .error e => .error e
  | .ok store =>
    match op store with
    | .error e => .error e
    | .ok (t, store') => .ok (t, dumpStore store')

/-- Modelled from the spec: the file-level `add_task` invocation. -/
def tracker_add (file : List TaskRecord) (d : String) (now : Nat) :
    Except TrackerError (Task × List TaskRecord) :=
  runMutation file (fun s => add_task s d now)

/-- Modelled from the spec: the file-level `update_task` invocation. -/
def tracker_update (file : List TaskRecord) (i : Nat) (d : String) (now : Nat) :
    Except TrackerError (Task × List TaskRecord) :=
  runMutation file (fun s => update_task s i d now)

/-- Modelled from the spec: the file-level `delete_task` invocation. -/
def tracker_delete (file : List TaskRecord) (i : Nat) :
    Except TrackerError (Task × List TaskRecord) :=
  runMutation file (fun s => delete_task s i)

/-- Modelled from the spec: the file-level `mark_in_progress` invocation. -/
def tracker_mark_in_progress (file : List TaskRecord) (i : Nat) (now : Nat) :
    Except TrackerError (Task × List TaskRecord) :=
  runMutation file (fun s => mark_in_progress s i now)

/-- Modelled from the spec: the file-level `mark_done` invocation. -/
def tracker_mark_done (file : List TaskRecord) (i : Nat) (now : Nat) :
    Except TrackerError (Task × List TaskRecord) :=
  runMutation file (fun s => mark_done s i now)

/-- Modelled from the spec: the file-level `list_tasks` invocation — a pure
read, the file is not rewritten. -/
def tracker_list (file : List TaskRecord) (s? : Option TaskStatus) :
    Except TrackerError (List Task) :=
  match loadStore file with
  | .error e => .error e
  | .ok store => .ok (list_tasks store s?)

/-- Modelled from the spec: `display_details` renders one task as a single
human-readable line with id, status, description and timestamps. -/
def display_details (t : Task) : String :=
  toString t.id ++ " " ++ statusString t.status ++ " " ++ t.description ++ " "
    ++ toString t.created_at ++ " " ++ toString t.updated_at ++ "\n"

/-- One parsed CLI invocation, as `command_interface.py` dispatches it: a
verb and its positional arguments (`add_argument`, lines 28-72). -/
inductive Command where
  | add (description : String)
  | update (task_id : Nat) (description : String)
  | delete (task_id : Nat)
  | list (status : Option TaskStatus)
  | markInProgress (task_id : Nat)
  | markDone (task_id : Nat)

/-- What one CLI invocation produces: the lines written to stdout and
stderr, or an uncaught engine error propagating out of `execute` (only
`ValueError`, the NotFound signal, is caught there). -/
inductive CliOutcome where
  | output (stdoutLines stderrLines : List String)
  | fatal (e : TrackerError)
deriving DecidableEq

/-- `CommandInterface.execute` (src/command_interface.py lines 74-114): each
verb calls exactly one tracker operation; `update`, `delete`,
`mark-in-progress` and `mark-done` catch only the NotFound signal
(`ValueError`) and report "Task (ID: n) not found." on stderr; `add` and
`list` catch nothing, so any engine error propagates; `list` reports
"No tasks found." on stderr when the result is empty. The pair's second
component is the file after the invocation. -/
def execute (c : Command) (file : List TaskRecord) (now : Nat) :
    CliOutcome × List TaskRecord :=
  match c with
  | .add d =>
    match tracker_add file d now with
    | .ok (t, file') =>
      (.output ["Task added successfully (ID: " ++ toString t.id ++ ").\n"] [], file')
    | .error e => (.fatal e, file)
  | .update i d =>
    match tracker_update file i d now with
    | .ok (t, file') =>
      (.output ["Task (ID: " ++ toString t.id ++ ") updated successfully.\n"] [], file')
    | .error .notFound =>
      (.output [] ["Task (ID: " ++ toString i ++ ") not found.\n"], file)
    | .error e => (.fatal e, file)
  | .delete i =>
    match tracker_delete file i with
    | .ok (t, file') =>
      (.output ["Task (ID: " ++ toString t.id ++ ") deleted successfully.\n"] [], file')
    | .error .notFound =>
      (.output [] ["Task (ID: " ++ toString i ++ ") not found.\n"], file)
    | .error e => (.fatal e, file)
  | .list s? =>
    match tracker_list file s? with
    | .ok tasks =>
      if tasks.isEmpty then (.output [] ["No tasks found.\n"], file)
      else (.output (tasks.map display_details) [], file)
    | .error e => (.fatal e, file)
  | .markInProgress i =>
    match tracker_mark_in_progress file i now with
    | .ok (t, file') =>
      (.output ["Task (ID: " ++ toString t.id ++ ") marked as in-progress successfully.\n"] [], file')
    | .error .notFound =>
      (.output [] ["Task (ID: " ++ toString i ++ ") not found.\n"], file)
    | .error e => (.fatal e, file)
  | .markDone i =>
    match tracker_mark_done file i now with
    | .ok (t, file') =>
      (.output ["Task (ID: " ++ toString t.id ++ ") marked as done successfully.\n"] [], file')
    | .error .notFound =>
      (.output [] ["Task (ID: " ++ toString i ++ ") not found.\n"], file)
    | .error e => (.fatal e, file)

/-- One engine operation of a store lifetime, with the clock value at which
it runs (the spec's lifecycle: one operation per invocation). -/
inductive Op where
  | add (d : String) (now : Nat)
  | update (i : Nat) (d : String) (now : Nat)
  | delete (i : Nat)
  | markInProgress (i : Nat) (now : Nat)
  | markDone (i : Nat) (now : Nat)
  | list (s? : Option TaskStatus)

/-- Whether an operation is a `delete_task`. -/
def Op.isDelete : Op → Bool
  | .delete _ => true
  | _ => false

/-- The store after one operation (a failed operation leaves it unchanged,
`list_tasks` never changes it). -/
def stepStore (store : List Task) : Op → List Task
  | .add d now => applyResult store (add_task store d now)
  | .update i d now => applyResult store (update_task store i d now)
  | .delete i => applyResult store (delete_task store i)
  | .markInProgress i now => applyResult store (mark_in_progress store i now)
  | .markDone i now => applyResult store (mark_done store i now)
  | .list _ => store

/-- The ids an operation assigns: the new task's id for a successful
`add_task`, nothing otherwise. -/
def assignedBy (store : List Task) : Op → List Nat
  | .add d now =>
    match add_task store d now with
    | .ok (t, _) => [t.id]
    | .error _ => []
  | _ => []

/-- The store after a sequence of operations. -/
def runOps (store : List Task) : List Op → List Task
  | [] => store
  | op :: ops => runOps (stepStore store op) ops

/-- All ids assigned along a sequence of operations, in order. -/
def assignedIds (store : List Task) : List Op → List Nat
  | [] => []
  | op :: ops => assignedBy store op ++ assignedIds (stepStore store op) ops

/-- The store invariant of the spec's data model: task ids are pairwise
distinct and every task satisfies `created_at <= updated_at`. -/
abbrev StoreInv (store : List Task) : Prop :=
  (store.map Task.id).Nodup ∧ ∀ t ∈ store, t.created_at ≤ t.updated_at

/-- The clock hypothesis of a real run: the current time is not before any
task's creation time. -/
abbrev ClockOk (store : List Task) (now : Nat) : Prop :=
  ∀ t ∈ store, t.created_at ≤ now

/-- One status transition of a single task effected by one `update_task`,
`mark_in_progress` or `mark_done` call (observed on a one-task store). -/
def statusStep (s1 s2 : TaskStatus) : Prop :=
  ∃ (t t' : Task) (store' : List Task) (d : String) (now : Nat),
    t.status = s1 ∧ t'.status = s2 ∧
    (update_task [t] t.id d now = .ok (t', store') ∨
     mark_in_progress [t] t.id now = .ok (t', store') ∨
     mark_done [t] t.id now = .ok (t', store'))

/-- A status is reachable from another when a (possibly empty) chain of
update/mark operations takes a task from the first to the second. -/
def statusReach (s1 s2 : TaskStatus) : Prop :=
  Relation.ReflTransGen statusStep s1 s2

/-- A concrete task with the given id, used by the spec's worked id-reuse
scenarios. -/
def sampleTask (n : Nat) : Task :=
  ⟨n, "t", .todo, 0, 0⟩

/-- The spec's scenario store holding tasks with ids 1, 2, 3. -/
def store123 : List Task :=
  [sampleTask 1, sampleTask 2, sampleTask 3]

theorem parseStatus_statusString (s : TaskStatus) :
    parseStatus (statusString s) = some s := by
  cases s <;> rfl

theorem loadTask_dumpTask (t : Task) : loadTask (dumpTask t) = .ok t := by
  cases t
  simp [loadTask, dumpTask, parseStatus_statusString]

theorem loadStore_dumpStore (store : List Task) :
    loadStore (dumpStore store) = .ok store := by
  induction store with
  | nil => rfl
  | cons t ts ih =>
    simp only [dumpStore, List.map_cons, loadStore, loadTask_dumpTask]
    simp only [dumpStore] at ih
    rw [ih]

theorem loadTask_error {r : TaskRecord} {e : TrackerError}
    (h : loadTask r = .error e) : e = .storageError := by
  unfold loadTask at h
  cases hp : parseStatus r.status <;> rw [hp] at h <;> simp_all

theorem loadStore_error {f : List TaskRecord} {e : TrackerError}
    (h : loadStore f = .error e) : e = .storageError := by
  induction f with
  | nil => simp [loadStore] at h
  | cons r rs ih =>
    unfold loadStore at h
    cases hl : loadTask r <;> rw [hl] at h
    · exact loadTask_error hl ▸ (by simp_all)
    · cases hs : loadStore rs <;> rw [hs] at h
      · simp_all
      · simp_all

theorem find?_id_eq_none {store : List Task} {i : Nat}
    (h : ∀ t ∈ store, t.id ≠ i) :
    store.find? (fun u => decide (u.id = i)) = none := by
  rw [List.find?_eq_none]
  intro t ht
  simp [h t ht]

theorem maxId_cons (u : Task) (s : List Task) :
    maxId (u :: s) = max u.id (maxId s) := rfl

theorem le_maxId {t : Task} {store : List Task} (h : t ∈ store) :
    t.id ≤ maxId store := by
  induction store with
  | nil => cases h
  | cons u s ih =>
    rw [maxId_cons]
    rcases List.mem_cons.mp h with h1 | h2
    · subst h1; exact le_max_left _ _
    · exact le_trans (ih h2) (le_max_right _ _)

theorem maxId_le {store : List Task} {m : Nat}
    (h : ∀ t ∈ store, t.id ≤ m) : maxId store ≤ m := by
  induction store with
  | nil => exact Nat.zero_le m
  | cons u s ih =>
    rw [maxId_cons]
    exact max_le (h u (List.mem_cons_self u s)) (ih fun t ht => h t (List.mem_cons_of_mem u ht))

theorem maxId_map_eq {store : List Task} {f : Task → Task}
    (h : ∀ u, (f u).id = u.id) : maxId (store.map f) = maxId store := by
  unfold maxId
  rw [List.map_map]
  congr 1
  exact List.map_congr_left fun u _ => h u

theorem foldr_max_init (l : List Nat) (a : Nat) :
    l.foldr max a = max (l.foldr max 0) a := by
  induction l with
  | nil => simp
  | cons x xs ih =>
    simp only [List.foldr_cons, ih]
    exact (max_assoc x (xs.foldr max 0) a).symm

theorem maxId_append_single (store : List Task) (t : Task) :
    maxId (store ++ [t]) = max (maxId store) t.id := by
  unfold maxId
  rw [List.map_append, List.foldr_append]
  simp only [List.map_cons, List.map_nil, List.foldr_cons, List.foldr_nil]
  rw [foldr_max_init]
  simp

theorem nextId_gt {t : Task} {store : List Task} (h : t ∈ store) :
    t.id < nextId store :=
  Nat.lt_succ_of_le (le_maxId h)

theorem add_task_ok {d : String} (hd : d ≠ "") (store : List Task) (now : Nat) :
    add_task store d now =
      .ok (⟨nextId store, d, .todo, now, now⟩,
        store ++ [⟨nextId store, d, .todo, now, now⟩]) := by
  simp [add_task, hd]

theorem storeInv_map_touch {store : List Task} {i now : Nat} {g : Task → Task}
    (hid : ∀ u, (g u).id = u.id) (hc : ∀ u, (g u).created_at = u.created_at)
    (hup : ∀ u, (g u).updated_at = now)
    (hInv : StoreInv store) (hck : ClockOk store now) :
    StoreInv (store.map (fun u => if u.id = i then g u else u)) := by
  constructor
  · rw [List.map_map]
    have : (Task.id ∘ fun u => if u.id = i then g u else u) = Task.id := by
      funext u
      by_cases h : u.id = i <;> simp [h, hid]
    rw [this]
    exact hInv.1
  · intro t' ht'
    rcases List.mem_map.mp ht' with ⟨u, hu, rfl⟩
    by_cases h : u.id = i
    · simp only [h, if_pos]
      rw [hc u, hup u]
      exact hck u hu
    · simp only [h, if_neg, not_false_iff]
      exact hInv.2 u hu

theorem created_map_touch {store : List Task} {i : Nat} {g : Task → Task}
    (hid : ∀ u, (g u).id = u.id) (hc : ∀ u, (g u).created_at = u.created_at) :
    ∀ t' ∈ store.map (fun u => if u.id = i then g u else u),
      ∃ t ∈ store, t'.id = t.id ∧ t'.created_at = t.created_at := by
  intro t' ht'
  rcases List.mem_map.mp ht' with ⟨u, hu, rfl⟩
  refine ⟨u, hu, ?_, ?_⟩ <;> by_cases h : u.id = i <;> simp [h, hid, hc]

theorem storeInv_delete {store : List Task} {i : Nat}
    (hInv : StoreInv store) :
    StoreInv (store.filter (fun u => decide (¬ u.id = i))) := by
  constructor
  · exact ((List.filter_sublist store).map Task.id).nodup hInv.1
  · intro t ht
    exact hInv.2 t (List.mem_of_mem_filter ht)

theorem storeInv_add {store : List Task} {now : Nat} {d : String}
    (hInv : StoreInv store) :
    StoreInv (store ++ [⟨nextId store, d, .todo, now, now⟩]) := by
  constructor
  · rw [List.map_append]
    rw [List.nodup_append]
    refine ⟨hInv.1, List.nodup_singleton _, ?_⟩
    intro a ha hb
    simp only [List.map_cons, List.map_nil, List.mem_singleton] at hb
    rcases List.mem_map.mp ha with ⟨u, hu, rfl⟩
    have := nextId_gt hu
    omega
  · intro t ht
    rcases List.mem_append.mp ht with h | h
    · exact hInv.2 t h
    · simp only [List.mem_singleton] at h
      subst h
      exact le_refl _

theorem update_task_ok_shape {store store' : List Task} {i now : Nat} {d : String} {t' : Task}
    (h : update_task store i d now = .ok (t', store')) :
    d ≠ "" ∧
      store' = store.map
        (fun u => if u.id = i then { u with description := d, updated_at := now } else u) := by
  unfold update_task at h
  cases hf : store.find? (fun u => decide (u.id = i)) <;> rw [hf] at h
  · simp at h
  · by_cases hd : d = "" <;> simp [hd] at h
    exact ⟨hd, h.2.symm⟩

theorem set_status_ok_shape {store store' : List Task} {i now : Nat} {s : TaskStatus} {t' : Task}
    (h : set_status store i s now = .ok (t', store')) :
    store' = store.map
      (fun u => if u.id = i then { u with status := s, updated_at := now } else u) := by
  unfold set_status at h
  cases hf : store.find? (fun u => decide (u.id = i)) <;> rw [hf] at h
  · simp at h
  · simp at h
    exact h.2.symm

theorem set_status_found {store : List Task} {i now : Nat} {s : TaskStatus} {t0 : Task}
    (h0 : t0 ∈ store) (hid : t0.id = i) :
    ∃ t' store', set_status store i s now = .ok (t', store') ∧
      t'.id = i ∧ t'.status = s ∧ t'.updated_at = now ∧ t' ∈ store' := by
  have hsome : (store.find? (fun u => decide (u.id = i))).isSome := by
    rw [List.find?_isSome]
    exact ⟨t0, h0, by simp [hid]⟩
  rcases Option.isSome_iff_exists.mp hsome with ⟨u, hu⟩
  have hui : u.id = i := by
    have := List.find?_some hu
    simpa using this
  have humem : u ∈ store := List.mem_of_find?_eq_some hu
  refine ⟨{ u with status := s, updated_at := now },
    store.map (fun v => if v.id = i then { v with status := s, updated_at := now } else v),
    ?_, by simp [hui], rfl, rfl, ?_⟩
  · unfold set_status
    rw [hu]
  · exact List.mem_map.mpr ⟨u, humem, by simp [hui]⟩

theorem add_task_ok_shape {store store' : List Task} {d : String} {now : Nat} {t : Task}
    (h : add_task store d now = .ok (t, store')) :
    t = ⟨nextId store, d, .todo, now, now⟩ ∧ store' = store ++ [t] := by
  unfold add_task at h
  split at h
  · cases h
  · simp only [Except.ok.injEq, Prod.mk.injEq] at h
    refine ⟨h.1.symm, ?_⟩
    rw [← h.2, ← h.1]

theorem update_task_ok_fst {store store' : List Task} {i now : Nat} {d : String} {t' : Task}
    (h : update_task store i d now = .ok (t', store')) :
    ∃ t0, store.find? (fun u => decide (u.id = i)) = some t0 ∧
      t' = { t0 with description := d, updated_at := now } := by
  unfold update_task at h
  cases hf : store.find? (fun u => decide (u.id = i)) <;> rw [hf] at h
  · cases h
  · rename_i t0
    by_cases hd : d = "" <;> simp [hd] at h
    exact ⟨t0, rfl, h.1.symm⟩

theorem set_status_ok_fst {store store' : List Task} {i now : Nat} {s : TaskStatus} {t' : Task}
    (h : set_status store i s now = .ok (t', store')) :
    ∃ t0, store.find? (fun u => decide (u.id = i)) = some t0 ∧
      t' = { t0 with status := s, updated_at := now } := by
  unfold set_status at h
  cases hf : store.find? (fun u => decide (u.id = i)) <;> rw [hf] at h
  · cases h
  · rename_i t0
    simp only [Except.ok.injEq, Prod.mk.injEq] at h
    exact ⟨t0, rfl, h.1.symm⟩

theorem assignedBy_mem {store : List Task} {op : Op} {n : Nat}
    (h : n ∈ assignedBy store op) :
    n = nextId store ∧ maxId (stepStore store op) = nextId store := by
  cases op with
  | add d now =>
    simp only [assignedBy] at h
    cases hm : add_task store d now <;> rw [hm] at h
    · simp at h
    · rename_i p
      obtain ⟨t, store'⟩ := p
      simp at h
      have hsh := add_task_ok_shape hm
      have hid : t.id = nextId store := by rw [hsh.1]
      constructor
      · rw [h, hid]
      · show maxId (applyResult store (add_task store d now)) = nextId store
        rw [hm]
        simp only [applyResult]
        rw [hsh.2, maxId_append_single, hid]
        exact Nat.max_eq_right (Nat.le_succ _)
  | update i d now => simp [assignedBy] at h
  | delete i => simp [assignedBy] at h
  | markInProgress i now => simp [assignedBy] at h
  | markDone i now => simp [assignedBy] at h
  | list s? => simp [assignedBy] at h

theorem maxId_mono_step {store : List Task} {op : Op} (h : op.isDelete = false) :
    maxId store ≤ maxId (stepStore store op) := by
  cases op with
  | add d now =>
    by_cases hd : d = ""
    · subst hd; simp [stepStore, add_task, applyResult]
    · rw [stepStore, add_task_ok hd]
      simp only [applyResult]
      rw [maxId_append_single]
      exact le_max_left _ _
  | update i d now =>
    rw [stepStore]
    cases hm : update_task store i d now with
    | error e => simp [applyResult]
    | ok p =>
      obtain ⟨t', store'⟩ := p
      simp only [applyResult]
      rw [(update_task_ok_shape hm).2]
      rw [maxId_map_eq (fun u => by by_cases hui : u.id = i <;> simp [hui])]
  | delete i => simp [Op.isDelete] at h
  | markInProgress i now =>
    rw [stepStore, mark_in_progress]
    cases hm : set_status store i .inProgress now with
    | error e => simp [applyResult]
    | ok p =>
      obtain ⟨t', store'⟩ := p
      simp only [applyResult]
      rw [set_status_ok_shape hm]
      rw [maxId_map_eq (fun u => by by_cases hui : u.id = i <;> simp [hui])]
  | markDone i now =>
    rw [stepStore, mark_done]
    cases hm : set_status store i .done now with
    | error e => simp [applyResult]
    | ok p =>
      obtain ⟨t', store'⟩ := p
      simp only [applyResult]
      rw [set_status_ok_shape hm]
      rw [maxId_map_eq (fun u => by by_cases hui : u.id = i <;> simp [hui])]
  | list s? => rw [stepStore]

theorem assigned_gt_maxId {ops : List Op} {store : List Task}
    (h : ∀ op ∈ ops, op.isDelete = false) :
    ∀ n ∈ assignedIds store ops, maxId store < n := by
  induction ops generalizing store with
  | nil => intro n hn; simp [assignedIds] at hn
  | cons op ops ih =>
    intro n hn
    simp only [assignedIds] at hn
    rcases List.mem_append.mp hn with h1 | h2
    · have := (assignedBy_mem h1).1
      rw [this, nextId]
      exact Nat.lt_succ_self _
    · have hstep := @maxId_mono_step store op (h op (List.mem_cons_self op ops))
      have hrec := ih (fun o ho => h o (List.mem_cons_of_mem _ ho)) n h2
      omega

theorem assigned_pairwise {ops : List Op} {store : List Task}
    (h : ∀ op ∈ ops, op.isDelete = false) :
    List.Pairwise (· < ·) (assignedIds store ops) := by
  induction ops generalizing store with
  | nil => simp [assignedIds]
  | cons op ops ih =>
    simp only [assignedIds]
    rw [List.pairwise_append]
    refine ⟨?_, ih (fun o ho => h o (List.mem_cons_of_mem _ ho)), ?_⟩
    · cases op with
      | add d now =>
        simp only [assignedBy]
        cases hm : add_task store d now with
        | error e => simp [hm]
        | ok p =>
          obtain ⟨t, s'⟩ := p
          simp [hm]
      | update i d now => simp [assignedBy]
      | delete i => simp [assignedBy]
      | markInProgress i now => simp [assignedBy]
      | markDone i now => simp [assignedBy]
      | list s? => simp [assignedBy]
    · intro a ha b hb
      have hab := assignedBy_mem ha
      have hb' := assigned_gt_maxId (fun o ho => h o (List.mem_cons_of_mem _ ho)) b hb
      omega

theorem update_task_singleton (t : Task) {d : String} (hd : d ≠ "") (now : Nat) :
    update_task [t] t.id d now =
      .ok ({ t with description := d, updated_at := now },
        [{ t with description := d, updated_at := now }]) := by
  unfold update_task
  rw [List.find?_cons_of_pos _ (by simp)]
  simp [hd]

theorem set_status_singleton (t : Task) (s : TaskStatus) (now : Nat) :
    set_status [t] t.id s now =
      .ok ({ t with status := s, updated_at := now },
        [{ t with status := s, updated_at := now }]) := by
  unfold set_status
  rw [List.find?_cons_of_pos _ (by simp)]
  simp

theorem statusStep_iff (s1 s2 : TaskStatus) :
    statusStep s1 s2 ↔ (s2 = s1 ∨ s2 = .inProgress ∨ s2 = .done) := by
  constructor
  · rintro ⟨t, t', store', d, now, ht, ht', h | h | h⟩
    · obtain ⟨t0, hf, rfl⟩ := update_task_ok_fst h
      have : t0 ∈ [t] := List.mem_of_find?_eq_some hf
      simp only [List.mem_singleton] at this
      subst this
      left
      rw [← ht', ← ht]
    · rw [mark_in_progress] at h
      obtain ⟨t0, hf, rfl⟩ := set_status_ok_fst h
      right; left
      rw [← ht']
    · rw [mark_done] at h
      obtain ⟨t0, hf, rfl⟩ := set_status_ok_fst h
      right; right
      rw [← ht']
  · rintro (rfl | rfl | rfl)
    · exact ⟨⟨1, "x", s2, 0, 0⟩, { (⟨1, "x", s2, 0, 0⟩ : Task) with description := "x", updated_at := 0 },
        [{ (⟨1, "x", s2, 0, 0⟩ : Task) with description := "x", updated_at := 0 }], "x", 0,
        rfl, rfl, Or.inl (update_task_singleton _ (by decide) 0)⟩
    · exact ⟨⟨1, "x", s1, 0, 0⟩, { (⟨1, "x", s1, 0, 0⟩ : Task) with status := .inProgress, updated_at := 0 },
        [{ (⟨1, "x", s1, 0, 0⟩ : Task) with status := .inProgress, updated_at := 0 }], "x", 0,
        rfl, rfl, Or.inr (Or.inl (set_status_singleton _ _ 0))⟩
    · exact ⟨⟨1, "x", s1, 0, 0⟩, { (⟨1, "x", s1, 0, 0⟩ : Task) with status := .done, updated_at := 0 },
        [{ (⟨1, "x", s1, 0, 0⟩ : Task) with status := .done, updated_at := 0 }], "x", 0,
        rfl, rfl, Or.inr (Or.inr (set_status_singleton _ _ 0))⟩

theorem statusReach_iff (s1 s2 : TaskStatus) :
    statusReach s1 s2 ↔ (s1 = s2 ∨ s2 = .inProgress ∨ s2 = .done) := by
  constructor
  · intro h
    induction h with
    | refl => exact Or.inl rfl
    | tail _ hstep ih =>
      rcases (statusStep_iff _ _).mp hstep with rfl | rfl | rfl
      · exact ih
      · exact Or.inr (Or.inl rfl)
      · exact Or.inr (Or.inr rfl)
  · rintro (rfl | rfl | rfl)
    · exact Relation.ReflTransGen.refl
    · exact Relation.ReflTransGen.single ((statusStep_iff _ _).mpr (Or.inr (Or.inl rfl)))
    · exact Relation.ReflTransGen.single ((statusStep_iff _ _).mpr (Or.inr (Or.inr rfl)))

theorem delete_task_ok_shape {store store' : List Task} {i : Nat} {t' : Task}
    (h : delete_task store i = .ok (t', store')) :
    store' = store.filter (fun u => decide (¬ u.id = i)) := by
  unfold delete_task at h
  cases hf : store.find? (fun u => decide (u.id = i)) <;> rw [hf] at h
  · cases h
  · simp only [Except.ok.injEq, Prod.mk.injEq] at h
    exact h.2.symm

/-- C1: `add_task` assigns the id one greater than the current maximum id in
the store (1 when the store is empty): the new task has status `todo`, the
given description, and an id strictly above every existing id, equal to
`m + 1` for the maximum existing id `m`. In particular, on a store with ids
[1,2,3], deleting task 3 makes the next add yield id 3 again, while deleting
task 2 makes the next add yield id 4. -/
theorem add_task_assigns_max_plus_one :
    (∀ (store : List Task) (d : String) (now : Nat), d ≠ "" →
      ∃ (t : Task) (store' : List Task),
        add_task store d now = .ok (t, store') ∧
        store' = store ++ [t] ∧ t.status = .todo ∧ t.description = d ∧
        (store = [] → t.id = 1) ∧
        (∀ u ∈ store, u.id < t.id) ∧
        (∀ m ∈ store.map Task.id, (∀ k ∈ store.map Task.id, k ≤ m) → t.id = m + 1)) ∧
    newIdOf (add_task (applyResult store123 (delete_task store123 3)) "x" 5) = some 3 ∧
    newIdOf (add_task (applyResult store123 (delete_task store123 2)) "x" 5) = some 4 := by
  refine ⟨?_, by decide, by decide⟩
  intro store d now hd
  refine ⟨_, _, add_task_ok hd store now, rfl, rfl, rfl, ?_, ?_, ?_⟩
  · intro h; subst h; rfl
  · intro u hu; exact nextId_gt hu
  · intro m hm hub
    have h1 : m ≤ maxId store := by
      rcases List.mem_map.mp hm with ⟨u, hu, rfl⟩
      exact le_maxId hu
    have h2 : maxId store ≤ m :=
      maxId_le fun u hu => hub u.id (List.mem_map_of_mem Task.id hu)
    show nextId store = m + 1
    rw [nextId]
    omega

/-- C2 counterexample: ids are reused after a deletion. Starting from the
empty store, `add_task` assigns id 1, `delete_task 1` removes it, and the
next `add_task` assigns id 1 again, so across this lifetime the assigned ids
[1, 1] are neither monotonically increasing nor unreused. -/
theorem id_reuse_after_delete_cex :
    assignedIds ([] : List Task) [Op.add "a" 0, Op.delete 1, Op.add "b" 1] = [1, 1] ∧
    ¬ (assignedIds ([] : List Task) [Op.add "a" 0, Op.delete 1, Op.add "b" 1]).Nodup ∧
    ¬ List.Pairwise (· < ·)
      (assignedIds ([] : List Task) [Op.add "a" 0, Op.delete 1, Op.add "b" 1]) :=
  ⟨by decide, by decide, by decide⟩

/-- C2 (amended): across any operation sequence that contains no
`delete_task`, the ids assigned by `add_task` are strictly increasing,
pairwise distinct, and never equal to an id already present in the store;
after a deletion the maximum-derived next id can repeat an id (see the
counterexample), exactly as the spec's id-assignment algorithm prescribes. -/
theorem ids_monotone_without_delete (store : List Task) (ops : List Op)
    (h : ∀ op ∈ ops, op.isDelete = false) :
    List.Pairwise (· < ·) (assignedIds store ops) ∧
    (assignedIds store ops).Nodup ∧
    ∀ n ∈ assignedIds store ops, ∀ t ∈ store, t.id < n := by
  refine ⟨assigned_pairwise h, (assigned_pairwise h).imp Nat.ne_of_lt, ?_⟩
  intro n hn t ht
  exact lt_of_le_of_lt (le_maxId ht) (assigned_gt_maxId h n hn)

/-- C2 witness: the theorem applied to a concrete deletion-free trace. -/
theorem ids_monotone_without_delete_witness :
    List.Pairwise (· < ·)
      (assignedIds ([] : List Task) [Op.add "a" 0, Op.markDone 1 1, Op.add "b" 2]) :=
  (ids_monotone_without_delete [] [Op.add "a" 0, Op.markDone 1 1, Op.add "b" 2]
    (by decide)).1

/-- C3: on an id absent from the store, `update_task`, `delete_task`,
`mark_in_progress` and `mark_done` all fail with `NotFound`, and the CLI
invocation reports "not found" on stderr leaving the persisted file
unchanged. -/
theorem missing_id_notFound (store : List Task) (i : Nat) (d : String) (now : Nat)
    (h : ∀ t ∈ store, t.id ≠ i) :
    update_task store i d now = .error .notFound ∧
    delete_task store i = .error .notFound ∧
    mark_in_progress store i now = .error .notFound ∧
    mark_done store i now = .error .notFound ∧
    execute (.update i d) (dumpStore store) now =
      (.output [] ["Task (ID: " ++ toString i ++ ") not found.\n"], dumpStore store) ∧
    execute (.delete i) (dumpStore store) now =
      (.output [] ["Task (ID: " ++ toString i ++ ") not found.\n"], dumpStore store) ∧
    execute (.markInProgress i) (dumpStore store) now =
      (.output [] ["Task (ID: " ++ toString i ++ ") not found.\n"], dumpStore store) ∧
    execute (.markDone i) (dumpStore store) now =
      (.output [] ["Task (ID: " ++ toString i ++ ") not found.\n"], dumpStore store) := by
  have hf := find?_id_eq_none h
  have h1 : update_task store i d now = .error .notFound := by
    unfold update_task; rw [hf]
  have h2 : delete_task store i = .error .notFound := by
    unfold delete_task; rw [hf]
  have h3 : set_status store i .inProgress now = .error .notFound := by
    unfold set_status; rw [hf]
  have h4 : set_status store i .done now = .error .notFound := by
    unfold set_status; rw [hf]
  have h3' : mark_in_progress store i now = .error .notFound := by
    rw [mark_in_progress]; exact h3
  have h4' : mark_done store i now = .error .notFound := by
    rw [mark_done]; exact h4
  refine ⟨h1, h2, h3', h4', ?_, ?_, ?_, ?_⟩ <;>
    simp [execute, tracker_update, tracker_delete, tracker_mark_in_progress,
      tracker_mark_done, runMutation, loadStore_dumpStore, h1, h2, h3', h4']

/-- C3 witness: the theorem applied to the empty store and id 7. -/
theorem missing_id_notFound_witness :
    update_task [] 7 "x" 0 = .error .notFound :=
  (missing_id_notFound [] 7 "x" 0 (by simp)).1

/-- C4: persisting a store to the backing file and loading it back yields
exactly the original ordered collection of tasks, with all fields (ids,
descriptions, statuses, timestamps) equal. -/
theorem persist_roundtrip (store : List Task) :
    loadStore (dumpStore store) = .ok store :=
  loadStore_dumpStore store

/-- C5: every Tracker operation preserves the store invariant (pairwise
distinct ids and `created_at <= updated_at` for every task), and no
operation ever changes a surviving task's `created_at`: the add leaves the
old tasks untouched and stamps the new one with the current time, while
update/delete/mark keep each resulting task's id and `created_at` equal to
those of a task of the original store. -/
theorem ops_preserve_invariant (store : List Task) (i now : Nat) (d : String)
    (s? : Option TaskStatus)
    (hInv : StoreInv store) (hck : ClockOk store now) (hd : d ≠ "") :
    StoreInv (applyResult store (add_task store d now)) ∧
    StoreInv (applyResult store (update_task store i d now)) ∧
    StoreInv (applyResult store (delete_task store i)) ∧
    StoreInv (applyResult store (mark_in_progress store i now)) ∧
    StoreInv (applyResult store (mark_done store i now)) ∧
    StoreInv (stepStore store (Op.list s?)) ∧
    applyResult store (add_task store d now) =
      store ++ [⟨nextId store, d, .todo, now, now⟩] ∧
    (∀ t' ∈ applyResult store (update_task store i d now),
      ∃ t ∈ store, t'.id = t.id ∧ t'.created_at = t.created_at) ∧
    (∀ t' ∈ applyResult store (delete_task store i), t' ∈ store) ∧
    (∀ t' ∈ applyResult store (mark_in_progress store i now),
      ∃ t ∈ store, t'.id = t.id ∧ t'.created_at = t.created_at) ∧
    (∀ t' ∈ applyResult store (mark_done store i now),
      ∃ t ∈ store, t'.id = t.id ∧ t'.created_at = t.created_at) := by
  have hadd : applyResult store (add_task store d now) =
      store ++ [⟨nextId store, d, .todo, now, now⟩] := by
    rw [add_task_ok hd]
    rfl
  have hupd : StoreInv (applyResult store (update_task store i d now)) ∧
      ∀ t' ∈ applyResult store (update_task store i d now),
        ∃ t ∈ store, t'.id = t.id ∧ t'.created_at = t.created_at := by
    cases hm : update_task store i d now with
    | error e =>
      exact ⟨hInv, fun t' ht' => ⟨t', ht', rfl, rfl⟩⟩
    | ok p =>
      obtain ⟨t', store'⟩ := p
      have hsh := (update_task_ok_shape hm).2
      simp only [applyResult, hsh]
      exact ⟨storeInv_map_touch (fun u => rfl) (fun u => rfl) (fun u => rfl) hInv hck,
        created_map_touch (fun u => rfl) (fun u => rfl)⟩
  have hdel : StoreInv (applyResult store (delete_task store i)) ∧
      ∀ t' ∈ applyResult store (delete_task store i), t' ∈ store := by
    cases hm : delete_task store i with
    | error e => exact ⟨hInv, fun t' ht' => ht'⟩
    | ok p =>
      obtain ⟨t', store'⟩ := p
      have hsh := delete_task_ok_shape hm
      simp only [applyResult, hsh]
      exact ⟨storeInv_delete hInv, fun u hu => List.mem_of_mem_filter hu⟩
  have hmark : ∀ s : TaskStatus,
      StoreInv (applyResult store (set_status store i s now)) ∧
      ∀ t' ∈ applyResult store (set_status store i s now),
        ∃ t ∈ store, t'.id = t.id ∧ t'.created_at = t.created_at := by
    intro s
    cases hm : set_status store i s now with
    | error e => exact ⟨hInv, fun t' ht' => ⟨t', ht', rfl, rfl⟩⟩
    | ok p =>
      obtain ⟨t', store'⟩ := p
      have hsh := set_status_ok_shape hm
      simp only [applyResult, hsh]
      exact ⟨storeInv_map_touch (fun u => rfl) (fun u => rfl) (fun u => rfl) hInv hck,
        created_map_touch (fun u => rfl) (fun u => rfl)⟩
  refine ⟨?_, hupd.1, hdel.1, ?_, ?_, hInv, hadd, hupd.2, hdel.2, ?_, ?_⟩
  · rw [hadd]
    exact storeInv_add hInv
  · rw [mark_in_progress]; exact (hmark .inProgress).1
  · rw [mark_done]; exact (hmark .done).1
  · rw [mark_in_progress]; exact (hmark .inProgress).2
  · rw [mark_done]; exact (hmark .done).2

/-- C5 witness: the theorem applied to the concrete three-task store. -/
theorem ops_preserve_invariant_witness :
    StoreInv (applyResult store123 (add_task store123 "x" 5)) :=
  (ops_preserve_invariant store123 1 5 "x" none (by decide) (by decide) (by decide)).1

/-- C6: `list_tasks` with a status filter returns exactly the tasks of that
status, as a sublist of the store (hence in the original insertion order);
with no filter it returns the whole store; and at the file level a listing
invocation on a well-formed file always succeeds. -/
theorem list_tasks_filter_spec :
    ∀ store : List Task,
      list_tasks store none = store ∧
      (∀ s : TaskStatus,
        (list_tasks store (some s)).Sublist store ∧
        ∀ t : Task, t ∈ list_tasks store (some s) ↔ t ∈ store ∧ t.status = s) ∧
      (∀ s? : Option TaskStatus,
        tracker_list (dumpStore store) s? = .ok (list_tasks store s?)) := by
  intro store
  refine ⟨rfl, ?_, ?_⟩
  · intro s
    constructor
    · simp only [list_tasks]
      exact List.filter_sublist store
    · intro t
      simp [list_tasks, List.mem_filter]
  · intro s?
    unfold tracker_list
    rw [loadStore_dumpStore]

/-- C7: when loading the backing file fails, the only possible error is
`StorageError`, and every CLI invocation propagates it as a fatal outcome
with the file untouched — it is never swallowed and never reported as the
"task not found" message. -/
theorem storage_error_fatal (c : Command) (file : List TaskRecord) (now : Nat)
    (e : TrackerError) (h : loadStore file = .error e) :
    e = .storageError ∧ execute c file now = (.fatal .storageError, file) := by
  have he := loadStore_error h
  subst he
  refine ⟨rfl, ?_⟩
  cases c <;>
    simp [execute, tracker_add, tracker_update, tracker_delete,
      tracker_mark_in_progress, tracker_mark_done, tracker_list, runMutation, h]

/-- C7 witness: a file whose record carries a malformed status string makes
every invocation fail fatally with `StorageError`. -/
theorem storage_error_fatal_witness :
    execute (Command.add "x") [⟨1, "d", "bogus", 0, 0⟩] 0 =
      (.fatal .storageError, [⟨1, "d", "bogus", 0, 0⟩]) :=
  (storage_error_fatal (Command.add "x") [⟨1, "d", "bogus", 0, 0⟩] 0 .storageError
    (by decide)).2

/-- C8 counterexample: `todo` is not reachable from `done` by any sequence
of update/mark operations, so it is false that any of the three statuses is
reachable from any other. -/
theorem todo_unreachable_cex : ¬ statusReach TaskStatus.done TaskStatus.todo := by
  intro h
  simpa using (statusReach_iff _ _).mp h

/-- C8 (amended): `mark_in_progress` and `mark_done` set the status of the
addressed task regardless of its prior status, so `in-progress` and `done`
are each reachable from every status (in particular `done` to `in-progress`
is allowed — no enforced ordering); but no operation sets a task back to
`todo`, so `todo` is reachable only trivially from itself. -/
theorem status_transitions_amended :
    (∀ (store : List Task) (i now : Nat) (t0 : Task), t0 ∈ store → t0.id = i →
      ∃ t' store', mark_in_progress store i now = .ok (t', store') ∧
        t'.id = i ∧ t'.status = .inProgress ∧ t' ∈ store') ∧
    (∀ (store : List Task) (i now : Nat) (t0 : Task), t0 ∈ store → t0.id = i →
      ∃ t' store', mark_done store i now = .ok (t', store') ∧
        t'.id = i ∧ t'.status = .done ∧ t' ∈ store') ∧
    (∀ s1 s2 : TaskStatus,
      statusReach s1 s2 ↔ (s1 = s2 ∨ s2 = .inProgress ∨ s2 = .done)) := by
  refine ⟨?_, ?_, statusReach_iff⟩
  · intro store i now t0 h0 hid
    obtain ⟨t', store', hss, h1, h2, _h3, h4⟩ :=
      @set_status_found store i now .inProgress t0 h0 hid
    exact ⟨t', store', by rw [mark_in_progress]; exact hss, h1, h2, h4⟩
  · intro store i now t0 h0 hid
    obtain ⟨t', store', hss, h1, h2, _h3, h4⟩ :=
      @set_status_found store i now .done t0 h0 hid
    exact ⟨t', store', by rw [mark_done]; exact hss, h1, h2, h4⟩

/-- C9: along any sequence of `add_task` calls from any starting store, the
assigned ids are strictly increasing and pairwise distinct. -/
theorem add_only_ids_increasing (store : List Task) (ops : List Op)
    (h : ∀ op ∈ ops, ∃ d now, op = Op.add d now) :
    List.Pairwise (· < ·) (assignedIds store ops) ∧
    (assignedIds store ops).Nodup := by
  have hnd : ∀ op ∈ ops, op.isDelete = false := by
    intro op hop
    obtain ⟨d, now, rfl⟩ := h op hop
    rfl
  exact ⟨assigned_pairwise hnd, (assigned_pairwise hnd).imp Nat.ne_of_lt⟩

/-- C9 witness: the theorem applied to two concrete adds on the three-task
store. -/
theorem add_only_ids_increasing_witness :
    List.Pairwise (· < ·) (assignedIds store123 [Op.add "c" 0, Op.add "d" 0]) :=
  (add_only_ids_increasing store123 [Op.add "c" 0, Op.add "d" 0]
    (by
      intro op hop
      rcases List.mem_cons.mp hop with rfl | hop
      · exact ⟨"c", 0, rfl⟩
      rcases List.mem_cons.mp hop with rfl | hop
      · exact ⟨"d", 0, rfl⟩
      cases hop)).1

/-- C10: an empty description is rejected by the engine with
`ValidationError`: `add_task` always, and `update_task` whenever the
addressed task exists; and the CLI `add` branch passes the description
through unchecked, so an empty description reaches the engine and its
`ValidationError` propagates uncaught out of `execute`, leaving the file
untouched. -/
theorem empty_description_rejected :
    (∀ (store : List Task) (now : Nat),
      add_task store "" now = .error .validationError) ∧
    (∀ (store : List Task) (i now : Nat) (t0 : Task), t0 ∈ store → t0.id = i →
      update_task store i "" now = .error .validationError) ∧
    (∀ (store : List Task) (now : Nat),
      execute (.add "") (dumpStore store) now =
        (.fatal .validationError, dumpStore store)) := by
  refine ⟨fun store now => rfl, ?_, ?_⟩
  · intro store i now t0 h0 hid
    have hsome : (store.find? (fun u => decide (u.id = i))).isSome := by
      rw [List.find?_isSome]
      exact ⟨t0, h0, by simp [hid]⟩
    rcases Option.isSome_iff_exists.mp hsome with ⟨u, hu⟩
    unfold update_task
    rw [hu]
    rfl
  · intro store now
    simp [execute, tracker_add, runMutation, loadStore_dumpStore, add_task]

end TaskTracker
